import Mathlib

/-!
Verification of the structured-templates evaluator.

The development shallowly embeds `src/structured_templates/engine.py` together
with `src/structured_templates/context.py` (the variant of the engine that the
design document adopts: `recursive` flag, condition-before-body checking and
string-resolution of `if` bodies).  Python dictionaries become insertion-ordered
association lists, the dynamic value union becomes the inductive `Value`, and
the recursive evaluator becomes a fuel-indexed structural recursion whose
observable behaviour on any terminating run coincides with the source.
The expression sub-language is an external collaborator in the design and is
modelled as a parameter `ExprEval`; `demoExpr` below is one small concrete
instance used to run the documented examples.
-/

/-- ASCII approximation of Python `str.isidentifier` (first character a letter
or underscore, remaining characters alphanumeric or underscore, non-empty;
non-ASCII identifiers are not modelled, no claim exercises them). -/
def isidentifier (s : String) : Bool :=
  match s.data with
  | [] => false
  | c :: cs => (c.isAlpha || c == '_') && cs.all (fun d => d.isAlphanum || d == '_')

/-- `hasPrefixCL pat cs` is Python `cs.startswith(pat)` on exploded character
lists. -/
def hasPrefixCL : List Char → List Char → Bool
  | [], _ => true
  | _ :: _, [] => false
  | p :: ps, c :: cs => p == c && hasPrefixCL ps cs

/-- `listHasSuffix pat cs` is Python `cs.endswith(pat)`. -/
def listHasSuffix (pat cs : List Char) : Bool :=
  hasPrefixCL pat.reverse cs.reverse

/-- Python substring containment `pat in cs`. -/
def listContainsSub (pat : List Char) : List Char → Bool
  | [] => pat.isEmpty
  | c :: cs => hasPrefixCL pat (c :: cs) || listContainsSub pat cs

/-- Drop `n` characters from the end of a list. -/
def dropLastN (n : Nat) (cs : List Char) : List Char :=
  (cs.reverse.drop n).reverse

/-- Python slice `s[a:-b]` (for the small `a`, `b` used by the engine). -/
def sliceInner (a b : Nat) (s : String) : String :=
  String.mk (dropLastN b (s.data.drop a))

/-- Worker for `splitOnIn`: Python `s.split(" in ")`, scanning left to right
and consuming non-overlapping occurrences of the four-character separator. -/
def splitOnInAux : List Char → List Char → List (List Char)
  | acc, ' ' :: 'i' :: 'n' :: ' ' :: rest => acc.reverse :: splitOnInAux [] rest
  | acc, c :: rest => splitOnInAux (c :: acc) rest
  | acc, [] => [acc.reverse]

/-- Python `s.split(" in ")`. -/
def splitOnIn (cs : List Char) : List (List Char) :=
  splitOnInAux [] cs

/-- Worker for `splitOnEq`: Python `s.split("=")`. -/
def splitOnEqAux : List Char → List Char → List (List Char)
  | acc, '=' :: rest => acc.reverse :: splitOnEqAux [] rest
  | acc, c :: rest => splitOnEqAux (c :: acc) rest
  | acc, [] => [acc.reverse]

/-- Python `s.split("=")`. -/
def splitOnEq (cs : List Char) : List (List Char) :=
  splitOnEqAux [] cs

/-- The value model of `structured_templates.types.Value`
(`dict[str, Any] | list[Any] | str | int | float | bool | None`): mappings are
insertion-ordered association lists; numbers are modelled as integers (no claim
exercises floating point). -/
inductive Value where
  | vMap (entries : List (String × Value))
  | vList (items : List Value)
  | vStr (s : String)
  | vInt (n : Int)
  | vBool (b : Bool)
  | vNull

/-- Python `type(v).__name__`, as used in the engine's error messages. -/
def typeName : Value → String
  | .vMap _ => "dict"
  | .vList _ => "list"
  | .vStr _ => "str"
  | .vInt _ => "int"
  | .vBool _ => "bool"
  | .vNull => "NoneType"

/-- Python truthiness of a `Value` (`if self.evaluate_expression(...)`). -/
def truthy : Value → Bool
  | .vNull => false
  | .vBool b => b
  | .vInt n => n != 0
  | .vStr s => !s.data.isEmpty
  | .vList l => !l.isEmpty
  | .vMap m => !m.isEmpty

/-- Python `str(result) if result is not None else ""` for the scalar results
accepted by inline interpolation. -/
def pyStr : Value → String
  | .vStr s => s
  | .vInt n => toString n
  | .vBool b => if b then "True" else "False"
  | .vNull => ""
  | .vMap _ => ""
  | .vList _ => ""

mutual

/-- Python `repr`, used only to render the synthetic `with(var=item!r)` keys of
shallow `for` expansion (string quoting is simplified to single quotes with
backslash escapes; no claim depends on the exact rendering). -/
def pyRepr : Value → String
  | .vStr s => "'" ++ String.mk (s.data.flatMap
      (fun c => if c == '\'' || c == '\\' then ['\\', c] else [c])) ++ "'"
  | .vInt n => toString n
  | .vBool b => if b then "True" else "False"
  | .vNull => "None"
  | .vList l => "[" ++ String.intercalate ", " (pyReprList l) ++ "]"
  | .vMap m => "\x7b" ++ String.intercalate ", " (pyReprEntries m) ++ "\x7d"

def pyReprList : List Value → List String
  | [] => []
  | v :: vs => pyRepr v :: pyReprList vs

def pyReprEntries : List (String × Value) → List String
  | [] => []
  | (k, v) :: rest => (pyRepr (.vStr k) ++ ": " ++ pyRepr v) :: pyReprEntries rest

end

/-- Python iteration over the result of the `for` iterable expression:
`isinstance(it, Iterable)` accepts lists, strings (yielding one-character
strings) and dicts (yielding their keys); scalars and `None` are rejected. -/
def pyIterate : Value → Option (List Value)
  | .vList l => some l
  | .vStr s => some (s.data.map (fun c => .vStr (String.mk [c])))
  | .vMap m => some (m.map (fun p => .vStr p.1))
  | _ => none

/-- `isinstance(value, str)`. -/
def isStr : Value → Bool
  | .vStr _ => true
  | _ => false

/-- Python tuple unpacking `a, b = parts`: succeeds exactly on two-element
lists, otherwise the interpreter raises `ValueError`. -/
def unpackPair {α : Type} : List α → Option (α × α)
  | [a, b] => some (a, b)
  | _ => none

/-- Projection used where the source's typing guarantees a `str`. -/
def asStr : Value → String
  | .vStr s => s
  | _ => ""

/-- Projection used where the source's typing guarantees a `dict`. -/
def asMap : Value → List (String × Value)
  | .vMap m => m
  | _ => []

/-- Keys of `Context`: mapping keys are strings, sequence indices integers
(`Context.key : str | int | None`; `None` only at the root). -/
inductive PKey where
  | ks (s : String)
  | ki (n : Nat)

/-- Scopes and the flattened scope chain handed to the expression evaluator. -/
def Scope := List (String × Value)

/-- `structured_templates.context.Context`: parent link, key in the parent,
the value at this node and the variables introduced here.  The source's
dataclass stores an optional parent with the invariant (asserted in
`__post_init__`) that a key is present whenever a parent is; the two
constructors encode exactly the reachable shapes. -/
inductive Context where
  | root (data : Value) (scope : List (String × Value))
  | node (parent : Context) (key : PKey) (data : Value) (scope : List (String × Value))

/-- The `parent` field (`None` at the root). -/
def Context.parentOpt : Context → Option Context
  | .root _ _ => none
  | .node p _ _ _ => some p

/-- The `key` field (`None` at the root). -/
def Context.keyOpt : Context → Option PKey
  | .root _ _ => none
  | .node _ k _ _ => some k

/-- The `data` field. -/
def Context.data : Context → Value
  | .root d _ => d
  | .node _ _ d _ => d

/-- The `scope` field. -/
def Context.scope : Context → List (String × Value)
  | .root _ s => s
  | .node _ _ _ s => s

/-- `Context(parent, key, data, scope)` as the source constructs it; the
`(some parent, none)` combination is rejected by the source's assertion and is
mapped to an inert placeholder key (the engine never builds it). -/
def mkCtx : Option Context → Option PKey → Value → List (String × Value) → Context
  | some p, some k, d, s => .node p k d s
  | some p, none, d, s => .node p (.ks "") d s
  | none, _, d, s => .root d s

/-- `Context.trace_location`: `$` at the root; each step appends `.key` for an
integer or identifier key and `.'key'` otherwise. -/
def Context.trace_location : Context → String
  | .root _ _ => "$"
  | .node p k _ _ =>
    p.trace_location ++
      (match k with
       | .ki n => "." ++ toString n
       | .ks s => if isidentifier s then "." ++ s else ".'" ++ s ++ "'")

/-- `structured_templates.exceptions.TemplateError` (the dataclass shown in
`__init__.py`): a context paired with a message. -/
structure TemplateError where
  ctx : Context
  message : String

/-- `Context.error(message)`. -/
def Context.error (c : Context) (message : String) : TemplateError :=
  ⟨c, message⟩

/-- `TemplateError.__str__`. -/
def TemplateError.render (e : TemplateError) : String :=
  "at " ++ e.ctx.trace_location ++ ": " ++ e.message

/-- How an evaluation run ends when it does not produce a value: `fuelOut` is
the artefact of the fuel-indexed embedding (never reached on terminating runs
with enough fuel), `terr` a raised `TemplateError`, and `pyErr` an uncaught
host exception (for example the `ValueError` of a failed tuple unpacking). -/
inductive EvalErr where
  | fuelOut
  | terr (e : TemplateError)
  | pyErr (msg : String)

/-- `Context.scope_chainmap(globals_)` flattened for lookup: the node's own
scope, then the ancestors' scopes outward, then the engine globals; lookup by
first match makes the innermost binding win, exactly as
`dict(ChainMap(self.scope or {}, ...))` does. -/
def Context.scope_chainmap (g : List (String × Value)) : Context → List (String × Value)
  | .root _ s => s ++ g
  | .node p _ _ s => s ++ p.scope_chainmap g

/-- Modelled from the spec: `engine.py` line 134 calls `ctx.full_scope(self.globals)`,
which is absent from the sources; §4.1 "effective_scope()" describes the ordered
union of the node's own scope with all ancestors' scopes, innermost binding
winning, terminating in the engine globals — exactly what
`Context.scope_chainmap` (context.py) computes, so `full_scope` is modelled as
that chain. -/
def Context.full_scope (c : Context) (g : List (String × Value)) : List (String × Value) :=
  c.scope_chainmap g

/-- The Expression Evaluator collaborator (§4.5): an expression source string
and the flattened scope chain give a `Value` or a failure description. -/
def ExprEval := String → List (String × Value) → Except String Value

/-- `TemplateEngine.evaluate_expression`: delegate to the collaborator on the
full scope chain and wrap any failure in a `TemplateError` at the expression's
context. -/
def evaluate_expression (ee : ExprEval) (g : Scope) (ctx : Context) : Except EvalErr Value :=
  match ee (asStr ctx.data) (ctx.full_scope g) with
  | .ok v => .ok v
  | .error msg => .error (.terr (ctx.error ("Failed to evaluate the expression: " ++ msg)))

/-- Python `d[k] = v` on an insertion-ordered dict: replace in place if the key
exists, append otherwise. -/
def dictInsert (m : List (String × Value)) (k : String) (v : Value) : List (String × Value) :=
  match m with
  | [] => [(k, v)]
  | (k', v') :: rest => if k' == k then (k', v) :: rest else (k', v') :: dictInsert rest k v

/-- Python `result.update(adds)`. -/
def dictUpdate (m adds : List (String × Value)) : List (String × Value) :=
  adds.foldl (fun acc p => dictInsert acc p.1 p.2) m

/-- Scanner for the first `}}` closing an interpolation marker, mirroring the
lazy group `(.+?)` of `re.sub(r"\$\{\{(.+?)\}\}", ...)`: the earliest `}}` wins
and `.` never matches a newline. -/
def findCloseAux : List Char → Option (List Char × List Char)
  | [] => none
  | c :: rest =>
    if c == '}' && hasPrefixCL ['}'] rest then some ([], rest.drop 1)
    else if c == '\n' then none
    else (findCloseAux rest).map (fun p => (c :: p.1, p.2))

/-- Content and remainder after an opening `${{`: the group needs at least one
(non-newline) character before the earliest `}}`. -/
def findInner : List Char → Option (List Char × List Char)
  | [] => none
  | c :: rest =>
    if c == '\n' then none
    else (findCloseAux rest).map (fun p => (c :: p.1, p.2))

/-- The `_repl` closure of `evaluate_string`: evaluate the group against the
parent context, reject structured (dict/list) results, render `None` as the
empty string and other scalars with `str`. -/
def interpRepl (ee : ExprEval) (g : Scope) (ctx : Context) (inner : String) : Except EvalErr String := do
  let result ← evaluate_expression ee g (mkCtx ctx.parentOpt ctx.keyOpt (.vStr inner) [])
  match result with
  | .vMap _ => .error (.terr (ctx.error ("Expected a plain value, got " ++ typeName result)))
  | .vList _ => .error (.terr (ctx.error ("Expected a plain value, got " ++ typeName result)))
  | r => .ok (pyStr r)

/-- `re.sub(r"\$\{\{(.+?)\}\}", _repl, ctx.data)`: scan left to right; at each
`${{` try to close it lazily, replace on success and otherwise emit the `$` and
keep scanning (as the regex engine advances its start position).  The fuel is
an embedding artefact; `fuel > length` always suffices. -/
def interpolate (ee : ExprEval) (g : Scope) (ctx : Context) : Nat → List Char → Except EvalErr (List Char)
  | 0, _ => .error .fuelOut
  | _ + 1, [] => pure []
  | fuel + 1, c :: rest =>
    if c == '$' && hasPrefixCL ['{', '{'] rest then
      match findInner (rest.drop 2) with
      | some (inner, rest') => do
        let r ← interpRepl ee g ctx (String.mk inner)
        let t ← interpolate ee g ctx fuel rest'
        pure (r.data ++ t)
      | none => do
        let t ← interpolate ee g ctx fuel rest
        pure (c :: t)
    else do
      let t ← interpolate ee g ctx fuel rest
      pure (c :: t)

/-- `TemplateEngine.evaluate_string`: a string that starts with `${{` and ends
with `}}` is evaluated whole as one expression (type-preserving, built on the
parent context); otherwise every `${{ ... }}` occurrence is substituted
inline. -/
def evaluate_string (ee : ExprEval) (g : Scope) (ctx : Context) : Except EvalErr Value :=
  let s := asStr ctx.data
  if hasPrefixCL ['$', '{', '{'] s.data && listHasSuffix ['}', '}'] s.data then
    evaluate_expression ee g (mkCtx ctx.parentOpt ctx.keyOpt (.vStr (sliceInner 3 2 s)) [])
  else
    (interpolate ee g ctx (s.data.length + 1) s.data).map (fun cs => .vStr (String.mk cs))

mutual

/-- `TemplateEngine.evaluate`: dispatch on the kind of `ctx.data`. -/
def evaluate : Nat → ExprEval → Scope → Context → Bool → Except EvalErr Value
  | 0, _, _, _, _ => .error .fuelOut
  | fuel + 1, ee, g, ctx, recursive =>
    match ctx.data with
    | .vMap _ => (evaluate_dict fuel ee g ctx recursive).map Value.vMap
    | .vList _ => (evaluate_list fuel ee g ctx recursive).map Value.vList
    | .vStr _ => evaluate_string ee g ctx
    | d => .ok d

/-- `TemplateEngine.evaluate_dict`: fold the entry loop over the declared
order, starting from an empty result. -/
def evaluate_dict : Nat → ExprEval → Scope → Context → Bool → Except EvalErr (List (String × Value))
  | 0, _, _, _, _ => .error .fuelOut
  | fuel + 1, ee, g, ctx, recursive => evalEntries fuel ee g ctx recursive (asMap ctx.data) []

/-- `evaluate_dict`'s `for key, value in ctx.data.items()` loop: one
`evalEntryStep` per entry in declared order, threading the accumulated
`result` dict. -/
def evalEntries : Nat → ExprEval → Scope → Context → Bool → List (String × Value) → List (String × Value) → Except EvalErr (List (String × Value))
  | 0, _, _, _, _, _, _ => .error .fuelOut
  | _ + 1, _, _, _, _, [], result => .ok result
  | fuel + 1, ee, g, ctx, recursive, (key, value) :: rest, result =>
    (evalEntryStep fuel ee g ctx recursive key value result).bind
      (fun result' => evalEntries fuel ee g ctx recursive rest result')

/-- The body of the entry loop of `evaluate_dict`: dispatch on the three
control-key forms and the ordinary-key case and return the updated `result`
dict (or raise). -/
def evalEntryStep : Nat → ExprEval → Scope → Context → Bool → String → Value → List (String × Value) → Except EvalErr (List (String × Value))
  | 0, _, _, _, _, _, _, _ => .error .fuelOut
  | fuel + 1, ee, g, ctx, recursive, key, value, result =>
    let subctx : Context := .node ctx (.ks key) value []
    if hasPrefixCL "if(".data key.data && listHasSuffix ")".data key.data then do
      let c ← evaluate_expression ee g (.node ctx (.ks key) (.vStr (sliceInner 3 1 key)) [])
      if truthy c then do
        let v1 ← match value with
          | .vStr _ => evaluate_string ee g (.node ctx (.ks key) value [])
          | _ => pure value
        match v1 with
        | .vMap m1 => do
          let m2 ← if recursive then
              evaluate_dict fuel ee g (.node ctx (.ks key) (.vMap m1) []) recursive
            else pure m1
          pure (dictUpdate result m2)
        | _ => .error (.terr (subctx.error "The value of an if block must be a dictionary."))
      else
        pure result
    else if hasPrefixCL "for(".data key.data && listHasSuffix ")".data key.data then
      match value with
      | .vMap _ =>
        let expr := sliceInner 4 1 key
        if !listContainsSub " in ".data expr.data then
          .error (.terr (subctx.error ("Invalid for block expression (missing 'in'): " ++ expr)))
        else
          match unpackPair (splitOnIn expr.data) with
          | some (varL, iterL) =>
            let var := String.mk varL
            if !isidentifier var then
              .error (.terr (subctx.error ("Invalid for block variable (not an identifier): " ++ var)))
            else do
              let it ← evaluate_expression ee g (.node ctx (.ks key) (.vStr (String.mk iterL)) [])
              match pyIterate it with
              | none =>
                .error (.terr (subctx.error ("The iterable of a for block must be iterable, got " ++ typeName it ++ ".")))
              | some items =>
                forItems fuel ee g subctx recursive var value items 0 result
          | none => .error (.pyErr "ValueError: too many values to unpack (expected 2)")
      | _ => .error (.terr (subctx.error "The value of a for block must be a dictionary."))
    else if hasPrefixCL "with(".data key.data && listHasSuffix ")".data key.data then
      match value with
      | .vMap _ =>
        let expr := sliceInner 5 1 key
        if !listContainsSub "=".data expr.data then
          .error (.terr (subctx.error ("Invalid with block expression (missing '='): " ++ expr)))
        else
          match unpackPair (splitOnEq expr.data) with
          | some (varL, valL) =>
            let var := String.mk varL
            if !isidentifier var then
              .error (.terr (subctx.error ("Invalid with block variable (not an identifier): " ++ var)))
            else do
              let val ← evaluate_expression ee g (.node ctx (.ks key) (.vStr (String.mk valL)) [])
              let m ← evaluate_dict fuel ee g (.node subctx (.ks var) value [(var, val)]) recursive
              pure (dictUpdate result m)
          | none => .error (.pyErr "ValueError: too many values to unpack (expected 2)")
      | _ => .error (.terr (subctx.error "The value of a with block must be a dictionary."))
    else do
      let kv ← evaluate_string ee g (.node ctx (.ks key) (.vStr key) [])
      match kv with
      | .vStr key_value => do
        let value' ←
          if recursive || isStr value then
            evaluate fuel ee g (.node ctx (.ks key) value []) recursive
          else pure value
        pure (dictInsert result key_value value')
      | _ => .error (.terr (subctx.error ("Expected a string key, got " ++ typeName kv)))

/-- The `for idx, item in enumerate(it)` loop of the `for` block: in recursive
mode each element is evaluated with a fresh scope binding the loop variable,
parented at the `for` entry and keyed by `str(idx)`, and merged into `result`;
in shallow mode a synthetic `with(var=repr(item))` entry defers expansion. -/
def forItems : Nat → ExprEval → Scope → Context → Bool → String → Value → List Value → Nat → List (String × Value) → Except EvalErr (List (String × Value))
  | 0, _, _, _, _, _, _, _, _, _ => .error .fuelOut
  | _ + 1, _, _, _, _, _, _, [], _, result => .ok result
  | fuel + 1, ee, g, subctx, recursive, var, body, item :: restItems, idx, result =>
    if recursive then do
      let m ← evaluate_dict fuel ee g (.node subctx (.ks (toString idx)) body [(var, item)]) recursive
      forItems fuel ee g subctx recursive var body restItems (idx + 1) (dictUpdate result m)
    else
      forItems fuel ee g subctx recursive var body restItems (idx + 1)
        (dictInsert result ("with(" ++ var ++ "=" ++ pyRepr item ++ ")") body)

/-- `TemplateEngine.evaluate_list`. -/
def evaluate_list : Nat → ExprEval → Scope → Context → Bool → Except EvalErr (List Value)
  | 0, _, _, _, _ => .error .fuelOut
  | fuel + 1, ee, g, ctx, recursive =>
    match ctx.data with
    | .vList items => evalItems fuel ee g ctx recursive items 0
    | _ => evalItems fuel ee g ctx recursive [] 0

/-- The element loop of `evaluate_list`: each element is evaluated as a child
context keyed by its index, in order. -/
def evalItems : Nat → ExprEval → Scope → Context → Bool → List Value → Nat → Except EvalErr (List Value)
  | 0, _, _, _, _, _, _ => .error .fuelOut
  | _ + 1, _, _, _, _, [], _ => .ok []
  | fuel + 1, ee, g, ctx, recursive, item :: rest, idx => do
    let v ← evaluate fuel ee g (.node ctx (.ki idx) item []) recursive
    let vs ← evalItems fuel ee g ctx recursive rest (idx + 1)
    pure (v :: vs)

end

/-- The public entry point on a bare value: wrap it in a root context
(`Context(None, None, value)`) and evaluate. -/
def evaluateRoot (fuel : Nat) (ee : ExprEval) (g : Scope) (v : Value) (recursive : Bool) : Except EvalErr Value :=
  evaluate fuel ee g (.root v []) recursive

/-- Python `str.strip` restricted to spaces (all the examples need). -/
def trimSpaces (s : String) : String :=
  String.mk ((s.data.dropWhile (· == ' ')).reverse.dropWhile (· == ' ') |>.reverse)

/-- One small concrete instance of the Expression Evaluator collaborator,
supporting exactly the expressions appearing in the documented examples
(`eval` itself is out of scope by design §1): literals `True`/`False`/`None`,
the sums `1 + 1`, small integer literals, `range(3)`, and variable lookup in
the scope chain. -/
def demoExpr : ExprEval := fun e scope =>
  let e := trimSpaces e
  if e == "True" then .ok (.vBool true)
  else if e == "False" then .ok (.vBool false)
  else if e == "None" then .ok .vNull
  else if e == "1 + 1" || e == "1+1" then .ok (.vInt 2)
  else if e == "range(3)" then .ok (.vList [.vInt 0, .vInt 1, .vInt 2])
  else if e == "0" then .ok (.vInt 0)
  else if e == "1" then .ok (.vInt 1)
  else if e == "2" then .ok (.vInt 2)
  else if e == "[1]" then .ok (.vList [.vInt 1])
  else if isidentifier e then
    match scope.lookup e with
    | some v => .ok v
    | none => .error ("name '" ++ e ++ "' is not defined")
  else .error "invalid syntax"

/-- `value` is a mapping. -/
def isMap : Value → Bool
  | .vMap _ => true
  | _ => false

/-- `value` is structured (a mapping or a sequence) — the results rejected by
inline interpolation. -/
def isStruct : Value → Bool
  | .vMap _ => true
  | .vList _ => true
  | _ => false

/-- An occurrence of the opening marker `${{` somewhere in a character list,
phrased with the same prefix test the scanner uses. -/
def hasMarker : List Char → Bool
  | [] => false
  | c :: rest => (c == '$' && hasPrefixCL ['{', '{'] rest) || hasMarker rest

/-- An occurrence of `}}` somewhere in a character list. -/
def hasClose : List Char → Bool
  | [] => false
  | c :: rest => (c == '}' && hasPrefixCL ['}'] rest) || hasClose rest

/-- A control-flow key: one of the three recognized prefixes together with the
closing parenthesis — exactly the tests `evaluate_dict` performs. -/
def controlKey (k : String) : Bool :=
  (hasPrefixCL "if(".data k.data || hasPrefixCL "for(".data k.data ||
    hasPrefixCL "with(".data k.data) && listHasSuffix ")".data k.data

mutual

/-- A plain template tree: no control keys, no interpolation markers anywhere
(in keys, string values, or nested), and unique mapping keys (the data-model
invariant of §3 — Python dictionaries cannot repeat a key). -/
def plainValue : Value → Bool
  | .vMap m => plainEntries m
  | .vList l => plainItems l
  | .vStr s => !hasMarker s.data
  | .vInt _ => true
  | .vBool _ => true
  | .vNull => true

def plainEntries : List (String × Value) → Bool
  | [] => true
  | (k, v) :: rest =>
    !controlKey k && !hasMarker k.data && !(rest.any (fun q => q.1 == k)) &&
      plainValue v && plainEntries rest

def plainItems : List Value → Bool
  | [] => true
  | v :: rest => plainValue v && plainItems rest

end

mutual

/-- Fuel sufficient to evaluate a plain tree — bookkeeping for the fuel-indexed
embedding only. -/
def needV : Value → Nat
  | .vMap m => 2 + needE m
  | .vList l => 2 + needL l
  | .vStr _ => 1
  | .vInt _ => 1
  | .vBool _ => 1
  | .vNull => 1

def needE : List (String × Value) → Nat
  | [] => 1
  | (_, v) :: rest => 2 + needV v + needE rest

def needL : List Value → Nat
  | [] => 1
  | v :: rest => 2 + needV v + needL rest

end

/-- Keys of `entries` do not occur among the keys of `res`. -/
def disjointKeys (entries res : List (String × Value)) : Bool :=
  entries.all (fun p => !(res.any (fun q => q.1 == p.1)))

/-- The spec's whole-string test, written from its words: a string matches
`^\$\{\{(.+)\}\}$` exactly when it carries the three-character prefix `${{`,
the two-character suffix `}}` and between them at least one character (so total
length at least six), none of which is a newline (`.` does not match newlines).
Defined for comparison against the branch test the code actually performs. -/
def regexWholeMatch (s : String) : Bool :=
  hasPrefixCL ['$', '{', '{'] s.data && listHasSuffix ['}', '}'] s.data &&
    decide (6 ≤ s.data.length) && (sliceInner 3 2 s).data.all (fun c => !(c == '\n'))

/-- The merge discipline of a `for` block as the spec words it: elements are
consumed in iteration order with the index starting at zero, each element's
body evaluation (under the given per-element premise) has its entries merged
into the accumulated result by dict update, so later iterations overwrite
earlier keys. -/
inductive ForMergeSpec (step : Nat → Value → List (String × Value) → Prop) :
    List Value → Nat → List (String × Value) → List (String × Value) → Prop
  | nil (idx : Nat) (res : List (String × Value)) : ForMergeSpec step [] idx res res
  | cons (idx : Nat) (res : List (String × Value)) (item : Value) (rest : List Value)
      (m final : List (String × Value)) :
      step idx item m →
      ForMergeSpec step rest (idx + 1) (dictUpdate res m) final →
      ForMergeSpec step (item :: rest) idx res final
theorem not_if_of_for {cs : List Char} (h : hasPrefixCL "for(".data cs = true) :
    hasPrefixCL "if(".data cs = false := by
  have hf : "for(".data = ['f', 'o', 'r', '('] := rfl
  have hi : "if(".data = ['i', 'f', '('] := rfl
  rw [hf] at h
  rw [hi]
  cases cs with
  | nil => simp [hasPrefixCL] at h
  | cons c rest =>
    simp only [hasPrefixCL, Bool.and_eq_true, beq_iff_eq] at h
    obtain ⟨hc1, -⟩ := h
    subst hc1
    rw [show hasPrefixCL ['i', 'f', '('] ('f' :: rest) = (('i' == 'f') && hasPrefixCL ['f', '('] rest) from rfl,
      show ('i' == 'f') = false from rfl, Bool.false_and]

theorem not_if_of_with {cs : List Char} (h : hasPrefixCL "with(".data cs = true) :
    hasPrefixCL "if(".data cs = false := by
  have hw : "with(".data = ['w', 'i', 't', 'h', '('] := rfl
  rw [hw] at h
  cases cs with
  | nil => simp [hasPrefixCL] at h
  | cons c rest =>
    simp only [hasPrefixCL, Bool.and_eq_true, beq_iff_eq] at h
    obtain ⟨hc1, -⟩ := h
    subst hc1
    rw [show "if(".data = ['i', 'f', '('] from rfl,
      show hasPrefixCL ['i', 'f', '('] ('w' :: rest) = (('i' == 'w') && hasPrefixCL ['f', '('] rest) from rfl,
      show ('i' == 'w') = false from rfl, Bool.false_and]

theorem not_for_of_with {cs : List Char} (h : hasPrefixCL "with(".data cs = true) :
    hasPrefixCL "for(".data cs = false := by
  have hw : "with(".data = ['w', 'i', 't', 'h', '('] := rfl
  rw [hw] at h
  cases cs with
  | nil => simp [hasPrefixCL] at h
  | cons c rest =>
    simp only [hasPrefixCL, Bool.and_eq_true, beq_iff_eq] at h
    obtain ⟨hc1, -⟩ := h
    subst hc1
    rw [show "for(".data = ['f', 'o', 'r', '('] from rfl,
      show hasPrefixCL ['f', 'o', 'r', '('] ('w' :: rest) = (('f' == 'w') && hasPrefixCL ['o', 'r', '('] rest) from rfl,
      show ('f' == 'w') = false from rfl, Bool.false_and]

theorem mkCtx_data (p : Option Context) (k : Option PKey) (d : Value) (sc : List (String × Value)) :
    (mkCtx p k d sc).data = d := by
  cases p <;> cases k <;> rfl

theorem lookup_append (x : String) (l1 l2 : List (String × Value)) :
    List.lookup x (l1 ++ l2) = ((List.lookup x l1).or (List.lookup x l2)) := by
  induction l1 with
  | nil => simp [List.lookup]
  | cons p rest ih =>
    obtain ⟨k, v⟩ := p
    by_cases hk : x == k
    · simp [List.lookup, hk]
    · have hk2 : (x == k) = false := by simpa using hk
      simp only [List.cons_append, List.lookup, hk2]
      exact ih

/-- A binding present in a node's own scope wins over every ancestor binding
and over the globals (the innermost frame is first in the chain). -/
theorem own_scope_wins (c : Context) (g : Scope) (x : String) (v : Value)
    (h : List.lookup x c.scope = some v) :
    List.lookup x (c.full_scope g) = some v := by
  cases c with
  | root d sc =>
    simp only [Context.full_scope, Context.scope_chainmap, Context.scope] at h ⊢
    rw [lookup_append, h]
    rfl
  | node p k d sc =>
    simp only [Context.full_scope, Context.scope_chainmap, Context.scope] at h ⊢
    rw [lookup_append, h]
    rfl

/-- A name not bound at the node falls through to the parent's chain. -/
theorem scope_falls_through (p : Context) (k : PKey) (d : Value) (sc : List (String × Value))
    (g : Scope) (x : String) (h : List.lookup x sc = none) :
    List.lookup x ((Context.node p k d sc).full_scope g) = List.lookup x (p.full_scope g) := by
  simp only [Context.full_scope, Context.scope_chainmap]
  rw [lookup_append, h]
  rfl

theorem root_scope_falls_through (d : Value) (sc : List (String × Value))
    (g : Scope) (x : String) (h : List.lookup x sc = none) :
    List.lookup x ((Context.root d sc).full_scope g) = List.lookup x g := by
  simp only [Context.full_scope, Context.scope_chainmap]
  rw [lookup_append, h]
  rfl

theorem evalItems_spec (ee : ExprEval) (g : Scope) (ctx : Context) (recursive : Bool) :
    ∀ (fuel : Nat) (items : List Value) (idx : Nat) (out : List Value),
    evalItems fuel ee g ctx recursive items idx = .ok out →
    out.length = items.length ∧
      ∀ i item, items.get? i = some item →
        ∃ f vi, out.get? i = some vi ∧
          evaluate f ee g (.node ctx (.ki (idx + i)) item []) recursive = .ok vi
  | 0, items, idx, out, h => by simp [evalItems] at h
  | fuel + 1, [], idx, out, h => by
    simp only [evalItems] at h
    injection h with h2
    subst h2
    exact ⟨rfl, fun i item hi => by simp at hi⟩
  | fuel + 1, item :: rest, idx, out, h => by
    simp only [evalItems] at h
    cases hv : evaluate fuel ee g (.node ctx (.ki idx) item []) recursive with
    | error e => rw [hv] at h; exact absurd h (by simp [Except.instMonad, Except.bind])
    | ok v =>
      rw [hv] at h
      cases hrest : evalItems fuel ee g ctx recursive rest (idx + 1) with
      | error e => rw [hrest] at h; exact absurd h (by simp [Except.instMonad, Except.bind])
      | ok vs =>
        rw [hrest] at h
        have hout : out = v :: vs := by
          have : (Except.ok (v :: vs) : Except EvalErr (List Value)) = .ok out := h
          injection this with h2
          exact h2.symm
        subst hout
        obtain ⟨hlen, hidx⟩ := evalItems_spec ee g ctx recursive fuel rest (idx + 1) vs hrest
        refine ⟨by simp [hlen], ?_⟩
        intro i it hi
        cases i with
        | zero =>
          injection hi with h3
          subst h3
          exact ⟨fuel, v, rfl, by simpa using hv⟩
        | succ n =>
          obtain ⟨f, vi, hvo, hvi⟩ := hidx n it (by simpa using hi)
          exact ⟨f, vi, by simpa using hvo, by rw [show idx + (n + 1) = idx + 1 + n by omega]; exact hvi⟩

theorem forItems_merge (ee : ExprEval) (g : Scope) (subctx : Context) (var : String) (body : Value) :
    ∀ (fuel : Nat) (items : List Value) (idx : Nat) (res final : List (String × Value)),
    forItems fuel ee g subctx true var body items idx res = .ok final →
    ForMergeSpec
      (fun idx' item m => ∃ f, evaluate_dict f ee g
        (.node subctx (.ks (toString idx')) body [(var, item)]) true = .ok m)
      items idx res final
  | 0, items, idx, res, final, h => by simp [forItems] at h
  | fuel + 1, [], idx, res, final, h => by
    simp only [forItems] at h
    injection h with h2
    rw [← h2]
    exact .nil idx res
  | fuel + 1, item :: rest, idx, res, final, h => by
    simp only [forItems, if_pos rfl] at h
    cases hm : evaluate_dict fuel ee g (.node subctx (.ks (toString idx)) body [(var, item)]) true with
    | error e => rw [hm] at h; exact absurd h (by simp [Except.instMonad, Except.bind])
    | ok m =>
      rw [hm] at h
      have h2 : forItems fuel ee g subctx true var body rest (idx + 1) (dictUpdate res m) = .ok final := by
        simpa [Except.instMonad, Except.bind] using h
      exact .cons idx res item rest m final ⟨fuel, hm⟩
        (forItems_merge ee g subctx var body fuel rest (idx + 1) (dictUpdate res m) final h2)

theorem hasClose_tail {c : Char} {l : List Char} (h : hasClose (c :: l) = false) :
    hasClose l = false := by
  simp only [hasClose, Bool.or_eq_false_iff] at h
  exact h.2

theorem findCloseAux_boundary : ∀ (inner post : List Char),
    hasClose (inner ++ ['}']) = false →
    inner.all (fun c => !(c == '\n')) = true →
    findCloseAux (inner ++ '}' :: '}' :: post) = some (inner, post)
  | [], post, _, _ => by
    simp [findCloseAux, hasPrefixCL]
  | c :: cs, post, h1, h2 => by
    have hfirst : (c == '}' && hasPrefixCL ['}'] (cs ++ '}' :: '}' :: post)) = false := by
      by_cases hc : (c == '}') = true
      · cases cs with
        | nil => simp [hasClose, hasPrefixCL, hc] at h1
        | cons c2 cs2 =>
          by_cases hc2 : (c2 == '}') = true
          · have hc2e : c2 = '}' := by simpa using hc2
            subst hc2e
            simp [hasClose, hasPrefixCL, hc] at h1
          · simp only [List.cons_append, hasPrefixCL]
            simp only [Bool.and_eq_false_iff]
            right
            left
            simpa using fun hcc => hc2 (by simp [← hcc])
      · simp [hc]
    have hnl : (c == '\n') = false := by
      simp only [List.all_cons, Bool.and_eq_true] at h2
      simpa using h2.1
    have ih := findCloseAux_boundary cs post
      (hasClose_tail (by simpa using h1))
      (by simp only [List.all_cons, Bool.and_eq_true] at h2; exact h2.2)
    simp only [List.cons_append, findCloseAux, List.append_eq, hfirst, hnl, Bool.false_eq_true,
      if_false, ih]
    simp

theorem findInner_boundary (inner post : List Char)
    (hne : inner ≠ [])
    (hcl : hasClose (inner ++ ['}']) = false)
    (hnl : inner.all (fun c => !(c == '\n')) = true) :
    findInner (inner ++ '}' :: '}' :: post) = some (inner, post) := by
  cases inner with
  | nil => exact absurd rfl hne
  | cons c cs =>
    have hnlc : (c == '\n') = false := by
      simp only [List.all_cons, Bool.and_eq_true] at hnl
      simpa using hnl.1
    have hrest := findCloseAux_boundary cs post (hasClose_tail (by simpa using hcl))
      (by simp only [List.all_cons, Bool.and_eq_true] at hnl; exact hnl.2)
    simp [findInner, hnlc, hrest]

theorem prefix2_shape {rest : List Char} (h : hasPrefixCL ['{', '{'] rest = true) :
    ∃ rest2, rest = '{' :: '{' :: rest2 := by
  cases rest with
  | nil => simp [hasPrefixCL] at h
  | cons a l =>
    cases l with
    | nil => simp [hasPrefixCL] at h
    | cons b l2 =>
      simp only [hasPrefixCL, Bool.and_eq_true, beq_iff_eq] at h
      obtain ⟨h1, h2, -⟩ := h
      exact ⟨l2, by rw [← h1, ← h2]⟩

theorem findCloseAux_decomp : ∀ (cs i r : List Char),
    findCloseAux cs = some (i, r) → cs = i ++ '}' :: '}' :: r
  | [], i, r, h => by simp [findCloseAux] at h
  | c :: rest, i, r, h => by
    simp only [findCloseAux] at h
    by_cases h1 : (c == '}' && hasPrefixCL ['}'] rest) = true
    · rw [if_pos h1] at h
      injection h with h2
      obtain ⟨hc, hp⟩ := Bool.and_eq_true_iff.mp h1
      have hce : c = '}' := by simpa using hc
      cases rest with
      | nil => simp [hasPrefixCL] at hp
      | cons r0 rs =>
        have hr0 : r0 = '}' := by
          simp only [hasPrefixCL, Bool.and_eq_true, beq_iff_eq] at hp
          exact hp.1.symm
        injection h2 with h3 h4
        subst hce hr0
        simp only [List.drop] at h4
        rw [← h3, ← h4]
        rfl
    · rw [if_neg h1] at h
      by_cases h2 : (c == '\n') = true
      · rw [if_pos h2] at h
        exact absurd h (by simp)
      · rw [if_neg h2] at h
        cases hrec : findCloseAux rest with
        | none => rw [hrec] at h; exact absurd h (by simp)
        | some p =>
          rw [hrec] at h
          obtain ⟨i', r'⟩ := p
          rw [show Option.map (fun p => (c :: p.1, p.2)) (some (i', r')) = some (c :: i', r') from rfl] at h
          injection h with h3
          injection h3 with h4 h5
          have := findCloseAux_decomp rest i' r' hrec
          rw [← h4, ← h5, this]
          rfl

theorem findInner_decomp (cs i r : List Char) (h : findInner cs = some (i, r)) :
    cs = i ++ '}' :: '}' :: r ∧ i ≠ [] := by
  cases cs with
  | nil => simp [findInner] at h
  | cons c rest =>
    simp only [findInner] at h
    by_cases h2 : (c == '\n') = true
    · rw [if_pos h2] at h
      exact absurd h (by simp)
    · rw [if_neg h2] at h
      cases hrec : findCloseAux rest with
      | none => rw [hrec] at h; exact absurd h (by simp)
      | some p =>
        rw [hrec] at h
        obtain ⟨i', r'⟩ := p
        rw [show Option.map (fun p => (c :: p.1, p.2)) (some (i', r')) = some (c :: i', r') from rfl] at h
        injection h with h3
        injection h3 with h4 h5
        refine ⟨?_, by rw [← h4]; simp⟩
        rw [← h4, ← h5, findCloseAux_decomp rest i' r' hrec]
        rfl

theorem interpolate_fuel_irrel (ee : ExprEval) (g : Scope) (ctx : Context) :
    ∀ (f1 f2 : Nat) (cs : List Char), cs.length < f1 → cs.length < f2 →
    interpolate ee g ctx f1 cs = interpolate ee g ctx f2 cs
  | 0, f2, cs, h1, h2 => absurd h1 (by omega)
  | f1 + 1, 0, cs, h1, h2 => absurd h2 (by omega)
  | f1 + 1, f2 + 1, [], h1, h2 => by simp only [interpolate]
  | f1 + 1, f2 + 1, c :: rest, h1, h2 => by
    simp only [interpolate]
    by_cases hm : (c == '$' && hasPrefixCL ['{', '{'] rest) = true
    · rw [if_pos hm, if_pos hm]
      cases hfi : findInner (rest.drop 2) with
      | none =>
        have ih := interpolate_fuel_irrel ee g ctx f1 f2 rest (by simp at h1; omega)
          (by simp at h2; omega)
        rw [ih]
      | some p =>
        obtain ⟨inner, rest'⟩ := p
        obtain ⟨hp, -⟩ := Bool.and_eq_true_iff.mp hm
        obtain ⟨rest2, hr2⟩ := prefix2_shape (Bool.and_eq_true_iff.mp hm).2
        have hdec := (findInner_decomp _ inner rest' hfi).1
        have hlen : rest'.length + 3 ≤ (rest.drop 2).length := by
          rw [hdec]
          have : inner ≠ [] := (findInner_decomp _ inner rest' hfi).2
          have : 1 ≤ inner.length := by
            cases inner with
            | nil => exact absurd rfl this
            | cons a l => simp
          simp [List.length_append]
          omega
        have hrl : (rest.drop 2).length ≤ rest.length := by
          simp
        have ih := interpolate_fuel_irrel ee g ctx f1 f2 rest'
          (by simp at h1; omega) (by simp at h2; omega)
        simp only [ih]
    · rw [if_neg hm, if_neg hm]
      have ih := interpolate_fuel_irrel ee g ctx f1 f2 rest (by simp at h1; omega)
        (by simp at h2; omega)
      rw [ih]

theorem hasMarker_tail {c : Char} {l : List Char} (h : hasMarker (c :: l) = false) :
    hasMarker l = false := by
  simp only [hasMarker, Bool.or_eq_false_iff] at h
  exact h.2

theorem not_marker_head {c : Char} {pre' : List Char} (h : hasMarker (c :: pre') = false)
    (cs' : List Char) :
    (c == '$' && hasPrefixCL ['{', '{'] (pre' ++ '$' :: cs')) = false := by
  simp only [hasMarker, Bool.or_eq_false_iff] at h
  obtain ⟨h1, -⟩ := h
  by_cases hc : (c == '$') = true
  · rw [hc] at h1 ⊢
    simp only [Bool.true_and] at h1 ⊢
    cases pre' with
    | nil => simp [hasPrefixCL]
    | cons p ps =>
      cases ps with
      | nil => simp [hasPrefixCL]
      | cons p2 ps2 =>
        simp only [List.cons_append, hasPrefixCL] at h1 ⊢
        simpa using (by simpa using h1)
  · simp [hc]

theorem interpolate_at_marker (ee : ExprEval) (g : Scope) (ctx : Context) :
    ∀ (fuel : Nat) (pre inner post : List Char),
    hasMarker pre = false →
    inner ≠ [] →
    hasClose (inner ++ ['}']) = false →
    inner.all (fun c => !(c == '\n')) = true →
    (pre ++ '$' :: '{' :: '{' :: (inner ++ '}' :: '}' :: post)).length < fuel →
    interpolate ee g ctx fuel (pre ++ '$' :: '{' :: '{' :: (inner ++ '}' :: '}' :: post)) =
      (do
        let r ← interpRepl ee g ctx (String.mk inner)
        let t ← interpolate ee g ctx (post.length + 1) post
        pure (pre ++ r.data ++ t))
  | 0, pre, inner, post, _, _, _, _, hl => absurd hl (by omega)
  | fuel + 1, [], inner, post, hpm, hne, hcl, hnl, hl => by
    simp only [List.nil_append, interpolate]
    rw [if_pos (by simp [hasPrefixCL])]
    rw [show List.drop 2 ('{' :: '{' :: (inner ++ '}' :: '}' :: post)) = inner ++ '}' :: '}' :: post from rfl]
    rw [findInner_boundary inner post hne hcl hnl]
    have hirr := interpolate_fuel_irrel ee g ctx fuel (post.length + 1) post
      (by simp only [List.length_cons, List.length_append] at hl; omega) (by omega)
    simp only [hirr]
  | fuel + 1, c :: pre', inner, post, hpm, hne, hcl, hnl, hl => by
    simp only [List.cons_append, interpolate, List.append_eq]
    rw [if_neg (by rw [not_marker_head hpm]; exact Bool.false_ne_true)]
    have ih := interpolate_at_marker ee g ctx fuel pre' inner post (hasMarker_tail hpm) hne hcl hnl
      (by simp only [List.length_cons, List.length_append] at hl ⊢; omega)
    simp only [ih]
    cases hr : interpRepl ee g ctx (String.mk inner) with
    | error e => simp [Except.instMonad, Except.bind]
    | ok r =>
      cases ht : interpolate ee g ctx (post.length + 1) post with
      | error e => simp [Except.instMonad, Except.bind]
      | ok t => simp [Except.instMonad, Except.bind, Except.pure]

theorem prefix_marker {cs : List Char} (h : hasPrefixCL ['$', '{', '{'] cs = true) :
    hasMarker cs = true := by
  cases cs with
  | nil => simp [hasPrefixCL] at h
  | cons c rest =>
    simp only [hasPrefixCL, Bool.and_eq_true, beq_iff_eq] at h
    obtain ⟨h1, h2⟩ := h
    subst h1
    simp only [hasMarker]
    rw [show ('$' == '$') = true from rfl]
    cases rest with
    | nil => simp [hasPrefixCL] at h2
    | cons c2 rest2 =>
      simp only [hasPrefixCL, Bool.and_eq_true, beq_iff_eq] at h2
      obtain ⟨h3, h4⟩ := h2
      subst h3
      cases rest2 with
      | nil => simp [hasPrefixCL] at h4
      | cons c3 rest3 =>
        simp only [hasPrefixCL, Bool.and_eq_true, beq_iff_eq] at h4
        obtain ⟨h5, -⟩ := h4
        subst h5
        simp [hasPrefixCL]

theorem interpolate_plain (ee : ExprEval) (g : Scope) (ctx : Context) :
    ∀ (fuel : Nat) (cs : List Char), hasMarker cs = false → cs.length < fuel →
    interpolate ee g ctx fuel cs = .ok cs
  | 0, cs, _, hl => absurd hl (by omega)
  | fuel + 1, [], _, _ => by simp [interpolate]; rfl
  | fuel + 1, c :: rest, hm, hl => by
    simp only [interpolate]
    have hc : (c == '$' && hasPrefixCL ['{', '{'] rest) = false := by
      simp only [hasMarker, Bool.or_eq_false_iff] at hm
      exact hm.1
    rw [if_neg (by rw [hc]; exact Bool.false_ne_true)]
    rw [interpolate_plain ee g ctx fuel rest (hasMarker_tail hm) (by simp at hl; omega)]
    rfl

theorem evaluate_string_plain (ee : ExprEval) (g : Scope) (ctx : Context) (s : String)
    (hd : ctx.data = .vStr s) (h : hasMarker s.data = false) :
    evaluate_string ee g ctx = .ok (.vStr s) := by
  have hpre : hasPrefixCL ['$', '{', '{'] s.data = false := by
    cases hp : hasPrefixCL ['$', '{', '{'] s.data with
    | false => rfl
    | true => rw [prefix_marker hp] at h; exact absurd h (by simp)
  simp only [evaluate_string, hd, asStr, hpre, Bool.false_and, Bool.false_eq_true, if_false]
  rw [interpolate_plain ee g ctx (s.data.length + 1) s.data h (by omega)]
  rfl

theorem dictInsert_append (res : List (String × Value)) (k : String) (v : Value)
    (h : res.any (fun q => q.1 == k) = false) :
    dictInsert res k v = res ++ [(k, v)] := by
  induction res with
  | nil => rfl
  | cons p rest ih =>
    obtain ⟨k', v'⟩ := p
    simp only [List.any_cons, Bool.or_eq_false_iff] at h
    simp only [dictInsert]
    rw [if_neg (by rw [show (k' == k) = false from h.1]; exact Bool.false_ne_true)]
    rw [ih h.2]
    rfl

theorem controlKey_false_branches {k : String} (h : controlKey k = false) :
    (hasPrefixCL "if(".data k.data && listHasSuffix ")".data k.data) = false ∧
    (hasPrefixCL "for(".data k.data && listHasSuffix ")".data k.data) = false ∧
    (hasPrefixCL "with(".data k.data && listHasSuffix ")".data k.data) = false := by
  simp only [controlKey, Bool.and_eq_false_iff, Bool.or_eq_false_iff] at h
  rcases h with ⟨⟨h1, h2⟩, h3⟩ | h4
  · exact ⟨by simp [h1], by simp [h2], by simp [h3]⟩
  · exact ⟨by simp [h4], by simp [h4], by simp [h4]⟩

mutual

theorem evaluatePure : ∀ (fuel : Nat) (ee : ExprEval) (g : Scope) (ctx : Context),
    plainValue ctx.data = true → needV ctx.data ≤ fuel →
    evaluate fuel ee g ctx true = .ok ctx.data
  | 0, ee, g, ctx, hp, hf => by
    have h1 : 1 ≤ needV ctx.data := by cases ctx.data <;> simp only [needV] <;> omega
    omega
  | fuel + 1, ee, g, ctx, hp, hf => by
    simp only [evaluate]
    cases hd : ctx.data
    case vMap m =>
      rw [evaluateDictPure fuel ee g ctx m hd (by rw [hd] at hp; simpa [plainValue] using hp)
        (by rw [hd] at hf; simp only [needV] at hf; omega)]
      rfl
    case vList l =>
      rw [evaluateListPure fuel ee g ctx l hd (by rw [hd] at hp; simpa [plainValue] using hp)
        (by rw [hd] at hf; simp only [needV] at hf; omega)]
      rfl
    case vStr s =>
      exact evaluate_string_plain ee g ctx s hd
        (by rw [hd] at hp; simpa [plainValue] using hp)
    all_goals rfl

theorem evaluateDictPure : ∀ (fuel : Nat) (ee : ExprEval) (g : Scope) (ctx : Context)
    (m : List (String × Value)), ctx.data = .vMap m → plainEntries m = true →
    needE m + 1 ≤ fuel → evaluate_dict fuel ee g ctx true = .ok m
  | 0, ee, g, ctx, m, hd, hp, hf => by
    omega
  | fuel + 1, ee, g, ctx, m, hd, hp, hf => by
    simp only [evaluate_dict, hd, asMap]
    have := evalEntriesPure fuel ee g ctx m [] hp (by cases m <;> simp [disjointKeys])
      (by omega)
    simpa using this

theorem evalEntriesPure : ∀ (fuel : Nat) (ee : ExprEval) (g : Scope) (ctx : Context)
    (entries res : List (String × Value)), plainEntries entries = true →
    disjointKeys entries res = true → needE entries ≤ fuel →
    evalEntries fuel ee g ctx true entries res = .ok (res ++ entries)
  | 0, ee, g, ctx, entries, res, hp, hdj, hf => by
    have h1 : 1 ≤ needE entries := by
      cases entries with
      | nil => simp only [needE]; omega
      | cons p rest => obtain ⟨k, v⟩ := p; simp only [needE]; omega
    omega
  | fuel + 1, ee, g, ctx, [], res, hp, hdj, hf => by
    simp [evalEntries]
  | fuel + 1, ee, g, ctx, (k, v) :: rest, res, hp, hdj, hf => by
    simp only [evalEntries]
    simp only [plainEntries, Bool.and_eq_true, Bool.not_eq_true'] at hp
    obtain ⟨⟨⟨⟨hck, hmk⟩, hnodup⟩, hpv⟩, hpr⟩ := hp
    simp only [disjointKeys, List.all_cons, Bool.and_eq_true, Bool.not_eq_true'] at hdj
    obtain ⟨hdj1, hdj2⟩ := hdj
    simp only [needE] at hf
    rw [evalEntryStepPure fuel ee g ctx k v res hck hmk hpv (by omega)]
    rw [show Except.bind (Except.ok (dictInsert res k v) : Except EvalErr (List (String × Value)))
      (fun result' => evalEntries fuel ee g ctx true rest result') =
      evalEntries fuel ee g ctx true rest (dictInsert res k v) from rfl]
    rw [dictInsert_append res k v hdj1]
    rw [evalEntriesPure fuel ee g ctx rest (res ++ [(k, v)]) hpr ?_ (by omega)]
    · rw [List.append_assoc]
      rfl
    · simp only [disjointKeys, List.all_eq_true] at hdj2 ⊢
      intro p hmem
      have h1 : (res.any fun q => q.1 == p.1) = false := by simpa using hdj2 p hmem
      have h2 : k ≠ p.1 := by
        intro heq
        have h3 : (rest.any fun q => q.1 == k) = true := by
          simp only [List.any_eq_true]
          exact ⟨p, hmem, by simp [heq]⟩
        rw [h3] at hnodup
        exact Bool.noConfusion hnodup
      simp [List.any_append, List.any_cons, h1, h2]

theorem evalEntryStepPure : ∀ (fuel : Nat) (ee : ExprEval) (g : Scope) (ctx : Context)
    (k : String) (v : Value) (res : List (String × Value)), controlKey k = false →
    hasMarker k.data = false → plainValue v = true → needV v + 1 ≤ fuel →
    evalEntryStep fuel ee g ctx true k v res = .ok (dictInsert res k v)
  | 0, ee, g, ctx, k, v, res, hck, hmk, hpv, hf => by exact absurd hf (by omega)
  | fuel + 1, ee, g, ctx, k, v, res, hck, hmk, hpv, hf => by
    obtain ⟨hb1, hb2, hb3⟩ := controlKey_false_branches hck
    simp only [evalEntryStep, hb1, hb2, hb3, Bool.false_eq_true, if_false]
    rw [evaluate_string_plain ee g (.node ctx (.ks k) (.vStr k) []) k rfl hmk]
    rw [show (Except.ok (Value.vStr k) : Except EvalErr Value) = Except.pure (Value.vStr k) from rfl]
    simp only [Except.instMonad, Except.bind, Except.pure, Bool.true_or, if_pos]
    rw [evaluatePure fuel ee g (.node ctx (.ks k) v []) (by simpa using hpv) (by simpa using (by omega : needV v ≤ fuel))]
    rfl

theorem evaluateListPure : ∀ (fuel : Nat) (ee : ExprEval) (g : Scope) (ctx : Context)
    (l : List Value), ctx.data = .vList l → plainItems l = true → needL l + 1 ≤ fuel →
    evaluate_list fuel ee g ctx true = .ok l
  | 0, ee, g, ctx, l, hd, hp, hf => by
    omega
  | fuel + 1, ee, g, ctx, l, hd, hp, hf => by
    simp only [evaluate_list, hd]
    exact evalItemsPure fuel ee g ctx l 0 hp (by omega)

theorem evalItemsPure : ∀ (fuel : Nat) (ee : ExprEval) (g : Scope) (ctx : Context)
    (items : List Value) (idx : Nat), plainItems items = true → needL items ≤ fuel →
    evalItems fuel ee g ctx true items idx = .ok items
  | 0, ee, g, ctx, items, idx, hp, hf => by
    have h1 : 1 ≤ needL items := by
      cases items with
      | nil => simp only [needL]; omega
      | cons a rest => simp only [needL]; omega
    omega
  | fuel + 1, ee, g, ctx, [], idx, hp, hf => by simp [evalItems]
  | fuel + 1, ee, g, ctx, item :: rest, idx, hp, hf => by
    simp only [evalItems]
    simp only [plainItems, Bool.and_eq_true] at hp
    simp only [needL] at hf
    rw [evaluatePure fuel ee g (.node ctx (.ki idx) item []) (by simpa using hp.1)
      (by simpa using (by omega : needV item ≤ fuel))]
    rw [evalItemsPure fuel ee g ctx rest (idx + 1) hp.2 (by omega)]
    rfl

end
/-- C1: a mapping entry whose key has the form `if(<expr>)` evaluates the
condition against the current scope chain; when it is true the associated
value — after first being run through the String Resolver when it is a
string — must be a mapping, and that mapping is evaluated (respecting
`recursive`) with its entries merged into the result at this level by dict
update, while a non-mapping value after optional string resolution raises the
malformed-block `TemplateError` at that entry. -/
theorem if_block_semantics
    (fuel : Nat) (ee : ExprEval) (g : Scope) (ctx : Context) (recursive : Bool)
    (key : String) (value : Value) (result : List (String × Value)) (c : Value)
    (hpre : hasPrefixCL "if(".data key.data = true)
    (hsuf : listHasSuffix ")".data key.data = true)
    (hc : ee (sliceInner 3 1 key) (ctx.scope_chainmap g) = .ok c)
    (htrue : truthy c = true) :
    (∀ m, value = Value.vMap m →
      evalEntryStep (fuel + 1) ee g ctx recursive key value result =
        if recursive then
          (evaluate_dict fuel ee g (.node ctx (.ks key) (.vMap m) []) recursive).map (dictUpdate result)
        else .ok (dictUpdate result m)) ∧
    (∀ s m1, value = Value.vStr s →
      evaluate_string ee g (.node ctx (.ks key) value []) = .ok (.vMap m1) →
      evalEntryStep (fuel + 1) ee g ctx recursive key value result =
        if recursive then
          (evaluate_dict fuel ee g (.node ctx (.ks key) (.vMap m1) []) recursive).map (dictUpdate result)
        else .ok (dictUpdate result m1)) ∧
    (∀ s v1, value = Value.vStr s →
      evaluate_string ee g (.node ctx (.ks key) value []) = .ok v1 →
      isMap v1 = false →
      evalEntryStep (fuel + 1) ee g ctx recursive key value result =
        .error (.terr ⟨.node ctx (.ks key) value [],
          "The value of an if block must be a dictionary."⟩)) ∧
    (isMap value = false → isStr value = false →
      evalEntryStep (fuel + 1) ee g ctx recursive key value result =
        .error (.terr ⟨.node ctx (.ks key) value [],
          "The value of an if block must be a dictionary."⟩)) := by
  refine ⟨?_, ?_, ?_, ?_⟩
  · intro m hm
    subst hm
    simp only [evalEntryStep, hpre, hsuf, evaluate_expression, asStr, Context.data,
      Context.full_scope, Context.scope_chainmap, List.nil_append, hc, htrue]
    cases recursive with
    | true =>
      cases hdr : evaluate_dict fuel ee g (.node ctx (.ks key) (.vMap m) []) true with
      | ok a => simp [Except.instMonad, Except.bind, Except.map, Except.pure, htrue, hdr]
      | error e => simp [Except.instMonad, Except.bind, Except.map, Except.pure, htrue, hdr]
    | false => simp [Except.instMonad, Except.bind, Except.map, Except.pure, htrue]
  · intro s m1 hm hstring
    subst hm
    simp only [evalEntryStep, hpre, hsuf, evaluate_expression, asStr, Context.data,
      Context.full_scope, Context.scope_chainmap, List.nil_append, hc, htrue, hstring]
    cases recursive with
    | true =>
      cases hdr : evaluate_dict fuel ee g (.node ctx (.ks key) (.vMap m1) []) true with
      | ok a => simp [Except.instMonad, Except.bind, Except.map, Except.pure, htrue, hdr]
      | error e => simp [Except.instMonad, Except.bind, Except.map, Except.pure, htrue, hdr]
    | false => simp [Except.instMonad, Except.bind, Except.map, Except.pure, htrue]
  · intro s v1 hm hstring hnm
    subst hm
    simp only [evalEntryStep, hpre, hsuf, evaluate_expression, asStr, Context.data,
      Context.full_scope, Context.scope_chainmap, List.nil_append, hc, htrue, hstring]
    cases v1 with
    | vMap m1 => simp [isMap] at hnm
    | vList l => simp [Except.instMonad, Except.bind, Except.pure, Context.error, htrue]
    | vStr t => simp [Except.instMonad, Except.bind, Except.pure, Context.error, htrue]
    | vInt n => simp [Except.instMonad, Except.bind, Except.pure, Context.error, htrue]
    | vBool b => simp [Except.instMonad, Except.bind, Except.pure, Context.error, htrue]
    | vNull => simp [Except.instMonad, Except.bind, Except.pure, Context.error, htrue]
  · intro hdm hds
    simp only [evalEntryStep, hpre, hsuf, evaluate_expression, asStr, Context.data,
      Context.full_scope, Context.scope_chainmap, List.nil_append, hc, htrue]
    cases value with
    | vMap m => simp [isMap] at hdm
    | vStr t => simp [isStr] at hds
    | vList l => simp [Except.instMonad, Except.bind, Except.pure, Context.error, htrue]
    | vInt n => simp [Except.instMonad, Except.bind, Except.pure, Context.error, htrue]
    | vBool b => simp [Except.instMonad, Except.bind, Except.pure, Context.error, htrue]
    | vNull => simp [Except.instMonad, Except.bind, Except.pure, Context.error, htrue]

/-- C2: in full (recursive) mode a `for(<var> in <iterable>)` entry with a
mapping body evaluates the iterable expression once against the current scope
chain; each element, in iteration order with the index starting at zero, has
the body evaluated in a fresh context keyed by `str(idx)`, parented at the
`for` entry, whose scope binds the variable to the element; the resulting
entries are merged into the output in iteration order with later iterations
overwriting earlier keys (`ForMergeSpec`). -/
theorem for_block_ordered_merge (fuel : Nat) (ee : ExprEval) (g : Scope) (ctx : Context)
    (key : String) (bodym : List (String × Value)) (result final : List (String × Value))
    (varL iterL : List Char) (itv : Value) (items : List Value)
    (hpre : hasPrefixCL "for(".data key.data = true)
    (hsuf : listHasSuffix ")".data key.data = true)
    (hin : listContainsSub " in ".data (sliceInner 4 1 key).data = true)
    (hu : unpackPair (splitOnIn (sliceInner 4 1 key).data) = some (varL, iterL))
    (hid : isidentifier (String.mk varL) = true)
    (hit : ee (String.mk iterL) (ctx.scope_chainmap g) = .ok itv)
    (hiter : pyIterate itv = some items)
    (hstep : evalEntryStep (fuel + 1) ee g ctx true key (.vMap bodym) result = .ok final) :
    ForMergeSpec
      (fun idx item m => ∃ f, evaluate_dict f ee g
        (.node (.node ctx (.ks key) (.vMap bodym) []) (.ks (toString idx)) (.vMap bodym)
          [(String.mk varL, item)]) true = .ok m)
      items 0 result final := by
  simp only [evalEntryStep, not_if_of_for hpre, hpre, hsuf, hin, hu, hid,
    evaluate_expression, asStr, Context.data, Context.full_scope, Context.scope_chainmap,
    List.nil_append, hit, hiter, Bool.false_and, Bool.and_self, Bool.not_true,
    Bool.false_eq_true, if_false] at hstep
  have h2 : forItems fuel ee g (.node ctx (.ks key) (.vMap bodym) []) true (String.mk varL)
      (.vMap bodym) items 0 result = .ok final := by
    simpa [Except.instMonad, Except.bind, hiter] using hstep
  exact forItems_merge ee g _ (String.mk varL) (.vMap bodym) fuel items 0 result final h2

/-- C3 (amended): the whole-string branch is taken exactly when the string
starts with `${{` and ends with `}}` (not when the full regex
`^\$\{\{(.+)\}\}$` matches — the two tests differ when the trimmed inner
text is empty or contains a newline); when taken, the inner text (the string
with its 3-character prefix and 2-character suffix trimmed) is evaluated once
as an expression and the raw result is returned with its type preserved; when
not taken, every successful result is a string. The regex match still implies
the branch is taken. -/
theorem whole_string_branch_condition (ee : ExprEval) (g : Scope) (ctx : Context) (s : String)
    (hd : ctx.data = .vStr s) :
    (∀ v, (hasPrefixCL ['$', '{', '{'] s.data && listHasSuffix ['}', '}'] s.data) = true →
      ee (sliceInner 3 2 s)
          ((mkCtx ctx.parentOpt ctx.keyOpt (.vStr (sliceInner 3 2 s)) []).full_scope g) = .ok v →
      evaluate_string ee g ctx = .ok v) ∧
    ((hasPrefixCL ['$', '{', '{'] s.data && listHasSuffix ['}', '}'] s.data) = false →
      ∀ v, evaluate_string ee g ctx = .ok v → ∃ t, v = .vStr t) ∧
    (regexWholeMatch s = true →
      (hasPrefixCL ['$', '{', '{'] s.data && listHasSuffix ['}', '}'] s.data) = true) := by
  refine ⟨?_, ?_, ?_⟩
  · intro v hcond hc
    simp only [evaluate_string, hd, asStr, hcond]
    simp only [evaluate_expression, mkCtx_data, asStr, hc]
    simp
  · intro hcond v h
    simp only [evaluate_string, hd, asStr, hcond] at h
    simp only [Bool.false_eq_true, if_false] at h
    cases hi : interpolate ee g ctx (s.data.length + 1) s.data with
    | ok cs =>
      rw [hi] at h
      simp only [Except.map] at h
      exact ⟨String.mk cs, by injection h with h2; exact h2.symm⟩
    | error e =>
      rw [hi] at h
      simp only [Except.map] at h
      exact absurd h (by simp)
  · intro hr
    simp only [regexWholeMatch, Bool.and_eq_true] at hr
    simp [hr.1.1.1, hr.1.1.2]

/-- C3 counterexample: on the five-character string consisting of the marker
delimiters with nothing between them, the regex of the claim does not match,
yet the code takes the whole-string branch and evaluates the empty inner text
as an expression (here failing), instead of returning the string unchanged as
the claim's inline rule would. -/
theorem whole_string_regex_counterexample :
    regexWholeMatch "${{}}" = false ∧
    (hasPrefixCL ['$', '{', '{'] "${{}}".data && listHasSuffix ['}', '}'] "${{}}".data) = true ∧
    evaluate_string demoExpr [] (.root (.vStr "${{}}") []) =
      .error (.terr ⟨.root (.vStr "") [], "Failed to evaluate the expression: invalid syntax"⟩) ∧
    evaluate_string demoExpr [] (.root (.vStr "${{}}") []) ≠ .ok (.vStr "${{}}") := by
  refine ⟨rfl, rfl, rfl, ?_⟩
  intro h
  rw [(rfl : evaluate_string demoExpr [] (.root (.vStr "${{}}") []) =
      .error (.terr ⟨.root (.vStr "") [], "Failed to evaluate the expression: invalid syntax"⟩))] at h
  exact Except.noConfusion h

/-- C4: for a string that does not take the whole-string branch, the leftmost
`${{ <inner> }}` occurrence (markers are located non-greedily: the hypotheses
say the prefix holds no marker and the inner text ends at the earliest `}}`)
is replaced by the expression result evaluated on the parent context's chain:
a structured (mapping or sequence) result raises the `TemplateError` carrying
the string node's context, a null result substitutes the empty string and
other scalars substitute their `str` rendering, while all other characters
pass through unchanged and scanning continues after the closing braces. -/
theorem inline_interpolation_step (ee : ExprEval) (g : Scope) (ctx : Context) (s : String)
    (pre inner post : List Char)
    (hd : ctx.data = .vStr s)
    (hsplit : s.data = pre ++ '$' :: '{' :: '{' :: (inner ++ '}' :: '}' :: post))
    (hpm : hasMarker pre = false)
    (hne : inner ≠ [])
    (hcl : hasClose (inner ++ ['}']) = false)
    (hnl : inner.all (fun c => !(c == '\n')) = true)
    (hwhole : (hasPrefixCL ['$', '{', '{'] s.data && listHasSuffix ['}', '}'] s.data) = false) :
    ∀ v, ee (String.mk inner)
        ((mkCtx ctx.parentOpt ctx.keyOpt (.vStr (String.mk inner)) []).full_scope g) = .ok v →
      (isStruct v = false →
        evaluate_string ee g ctx =
          (interpolate ee g ctx (post.length + 1) post).map
            (fun t => .vStr (String.mk (pre ++ (pyStr v).data ++ t)))) ∧
      (isStruct v = true →
        evaluate_string ee g ctx =
          .error (.terr ⟨ctx, "Expected a plain value, got " ++ typeName v⟩)) := by
  intro v hv
  have hmain : evaluate_string ee g ctx =
      ((do
        let r ← interpRepl ee g ctx (String.mk inner)
        let t ← interpolate ee g ctx (post.length + 1) post
        pure (pre ++ r.data ++ t)) : Except EvalErr (List Char)).map
          (fun cs => .vStr (String.mk cs)) := by
    simp only [evaluate_string, hd, asStr, hwhole, Bool.false_eq_true, if_false]
    rw [hsplit]
    rw [interpolate_at_marker ee g ctx _ pre inner post hpm hne hcl hnl (by omega)]
  constructor
  · intro hsc
    rw [hmain]
    simp only [interpRepl, evaluate_expression, mkCtx_data, asStr, hv]
    cases v with
    | vMap m => simp [isStruct] at hsc
    | vList l => simp [isStruct] at hsc
    | vStr t =>
      cases ht : interpolate ee g ctx (post.length + 1) post with
      | error e => simp [Except.instMonad, Except.bind, Except.map, ht]
      | ok t2 => simp [Except.instMonad, Except.bind, Except.map, Except.pure, ht]
    | vInt n =>
      cases ht : interpolate ee g ctx (post.length + 1) post with
      | error e => simp [Except.instMonad, Except.bind, Except.map, ht]
      | ok t2 => simp [Except.instMonad, Except.bind, Except.map, Except.pure, ht]
    | vBool b =>
      cases ht : interpolate ee g ctx (post.length + 1) post with
      | error e => simp [Except.instMonad, Except.bind, Except.map, ht]
      | ok t2 => simp [Except.instMonad, Except.bind, Except.map, Except.pure, ht]
    | vNull =>
      cases ht : interpolate ee g ctx (post.length + 1) post with
      | error e => simp [Except.instMonad, Except.bind, Except.map, ht]
      | ok t2 => simp [Except.instMonad, Except.bind, Except.map, Except.pure, ht]
  · intro hsc
    rw [hmain]
    simp only [interpRepl, evaluate_expression, mkCtx_data, asStr, hv]
    cases v with
    | vMap m => simp [Except.instMonad, Except.bind, Except.map, Context.error, typeName]
    | vList l => simp [Except.instMonad, Except.bind, Except.map, Context.error, typeName]
    | vStr t => simp [isStruct] at hsc
    | vInt n => simp [isStruct] at hsc
    | vBool b => simp [isStruct] at hsc
    | vNull => simp [isStruct] at hsc

/-- C5: the effective scope of a node is its own scope followed by the
ancestors' scopes and finally the engine globals, looked up innermost-first:
a binding introduced at the node (as `for`/`with` bodies do) shadows any
same-named outer binding and the globals; unbound names fall through to the
parent chain and ultimately the globals; and, end to end, a `with` binding is
visible inside its body while a sibling entry still sees the global value —
the binding does not leak. -/
theorem scope_shadowing_chain :
    (∀ (c : Context) (g : Scope) (x : String) (v : Value),
      List.lookup x c.scope = some v → List.lookup x (c.full_scope g) = some v) ∧
    (∀ (p : Context) (k : PKey) (d : Value) (sc : List (String × Value)) (g : Scope) (x : String),
      List.lookup x sc = none →
      List.lookup x ((Context.node p k d sc).full_scope g) = List.lookup x (p.full_scope g)) ∧
    (∀ (d : Value) (sc : List (String × Value)) (g : Scope) (x : String),
      List.lookup x sc = none →
      List.lookup x ((Context.root d sc).full_scope g) = List.lookup x g) ∧
    evaluateRoot 20 demoExpr [("i", .vInt 2)]
      (.vMap [("with(i=1)", .vMap [("inner${{i}}", .vStr "${{i}}")]), ("sib", .vStr "${{i}}")])
      true = .ok (.vMap [("inner1", .vInt 1), ("sib", .vInt 2)]) :=
  ⟨own_scope_wins, scope_falls_through, root_scope_falls_through, rfl⟩

/-- C6 (amended): a `for(...)` key whose parenthesized text lacks the literal
separator `" in "`, or a `with(...)` key whose text lacks `"="`, fails with the
malformed-block `TemplateError` located at that entry, as does a non-identifier
variable after a successful two-way split; but when the text contains the
separator more than once the two-element tuple unpacking fails, so evaluation
ends with an uncaught host `ValueError` — not a `TemplateError`. -/
theorem malformed_separator_errors
    (fuel : Nat) (ee : ExprEval) (g : Scope) (ctx : Context) (recursive : Bool)
    (key : String) (value : Value) (result : List (String × Value))
    (hsuf : listHasSuffix ")".data key.data = true) :
    (∀ m, hasPrefixCL "for(".data key.data = true →
      value = Value.vMap m →
      listContainsSub " in ".data (sliceInner 4 1 key).data = false →
      evalEntryStep (fuel + 1) ee g ctx recursive key value result =
        .error (.terr ⟨.node ctx (.ks key) value [],
          "Invalid for block expression (missing 'in'): " ++ sliceInner 4 1 key⟩)) ∧
    (∀ m, hasPrefixCL "for(".data key.data = true →
      value = Value.vMap m →
      listContainsSub " in ".data (sliceInner 4 1 key).data = true →
      unpackPair (splitOnIn (sliceInner 4 1 key).data) = none →
      evalEntryStep (fuel + 1) ee g ctx recursive key value result =
        .error (.pyErr "ValueError: too many values to unpack (expected 2)")) ∧
    (∀ m varL iterL,
      hasPrefixCL "for(".data key.data = true →
      value = Value.vMap m →
      listContainsSub " in ".data (sliceInner 4 1 key).data = true →
      unpackPair (splitOnIn (sliceInner 4 1 key).data) = some (varL, iterL) →
      isidentifier (String.mk varL) = false →
      evalEntryStep (fuel + 1) ee g ctx recursive key value result =
        .error (.terr ⟨.node ctx (.ks key) value [],
          "Invalid for block variable (not an identifier): " ++ String.mk varL⟩)) ∧
    (∀ m, hasPrefixCL "with(".data key.data = true →
      value = Value.vMap m →
      listContainsSub "=".data (sliceInner 5 1 key).data = false →
      evalEntryStep (fuel + 1) ee g ctx recursive key value result =
        .error (.terr ⟨.node ctx (.ks key) value [],
          "Invalid with block expression (missing '='): " ++ sliceInner 5 1 key⟩)) ∧
    (∀ m, hasPrefixCL "with(".data key.data = true →
      value = Value.vMap m →
      listContainsSub "=".data (sliceInner 5 1 key).data = true →
      unpackPair (splitOnEq (sliceInner 5 1 key).data) = none →
      evalEntryStep (fuel + 1) ee g ctx recursive key value result =
        .error (.pyErr "ValueError: too many values to unpack (expected 2)")) ∧
    (∀ m varL valL,
      hasPrefixCL "with(".data key.data = true →
      value = Value.vMap m →
      listContainsSub "=".data (sliceInner 5 1 key).data = true →
      unpackPair (splitOnEq (sliceInner 5 1 key).data) = some (varL, valL) →
      isidentifier (String.mk varL) = false →
      evalEntryStep (fuel + 1) ee g ctx recursive key value result =
        .error (.terr ⟨.node ctx (.ks key) value [],
          "Invalid with block variable (not an identifier): " ++ String.mk varL⟩)) := by
  refine ⟨?_, ?_, ?_, ?_, ?_, ?_⟩
  · intro m hfor hm hnoin
    subst hm
    simp only [evalEntryStep, not_if_of_for hfor, hfor, hsuf, hnoin, Context.error]
    simp
  · intro m hfor hm hin hu
    subst hm
    simp only [evalEntryStep, not_if_of_for hfor, hfor, hsuf, hin, hu, Context.error]
    simp
  · intro m varL iterL hfor hm hin hu hid
    subst hm
    simp only [evalEntryStep, not_if_of_for hfor, hfor, hsuf, hin, hu, hid, Context.error]
    simp
  · intro m hw hm hnoeq
    subst hm
    simp only [evalEntryStep, not_if_of_with hw, not_for_of_with hw, hw, hsuf, hnoeq, Context.error]
    simp
  · intro m hw hm heq hu
    subst hm
    simp only [evalEntryStep, not_if_of_with hw, not_for_of_with hw, hw, hsuf, heq, hu, Context.error]
    simp
  · intro m varL valL hw hm heq hu hid
    subst hm
    simp only [evalEntryStep, not_if_of_with hw, not_for_of_with hw, hw, hsuf, heq, hu, hid, Context.error]
    simp

/-- C6 counterexample: a `for` key whose text contains `" in "` twice passes
the containment check, but the two-way tuple unpacking of the three-part split
fails, so evaluation ends with the uncaught `ValueError` of the host — not the
malformed-block `TemplateError` the claim requires. -/
theorem for_separator_counterexample :
    listContainsSub " in ".data (sliceInner 4 1 "for(i in x in y)").data = true ∧
    evaluateRoot 9 demoExpr [] (.vMap [("for(i in x in y)", .vMap [("a", .vInt 1)])]) true
      = .error (.pyErr "ValueError: too many values to unpack (expected 2)") ∧
    evaluateRoot 9 demoExpr [] (.vMap [("for(i in x in y)", .vMap [("a", .vInt 1)])]) true
      ≠ .error (.terr ⟨.node (.root (.vMap [("for(i in x in y)", .vMap [("a", .vInt 1)])]) [])
          (.ks "for(i in x in y)") (.vMap [("a", .vInt 1)]) [],
          "Invalid for block expression (missing 'in'): i in x in y"⟩) := by
  refine ⟨rfl, rfl, ?_⟩
  intro h
  rw [(rfl : evaluateRoot 9 demoExpr [] (.vMap [("for(i in x in y)", .vMap [("a", .vInt 1)])]) true
      = .error (.pyErr "ValueError: too many values to unpack (expected 2)"))] at h
  injection h with h2
  exact EvalErr.noConfusion h2

/-- C7: evaluating a sequence yields a sequence of exactly the same length in
which element `i` of the output is the evaluation of element `i` of the input
as a child context keyed by its index, in order — no element disappears,
multiplies or is reordered. -/
theorem sequence_evaluation_one_to_one (fuel : Nat) (ee : ExprEval) (g : Scope) (ctx : Context)
    (recursive : Bool) (items : List Value) (out : List Value)
    (hd : ctx.data = .vList items)
    (h : evaluate_list fuel ee g ctx recursive = .ok out) :
    out.length = items.length ∧
      ∀ i item, items.get? i = some item →
        ∃ f vi, out.get? i = some vi ∧
          evaluate f ee g (.node ctx (.ki i) item []) recursive = .ok vi := by
  cases fuel with
  | zero => simp [evaluate_list] at h
  | succ fuel =>
    simp only [evaluate_list, hd] at h
    obtain ⟨hlen, hidx⟩ := evalItems_spec ee g ctx recursive fuel items 0 out h
    refine ⟨hlen, ?_⟩
    intro i item hi
    obtain ⟨f, vi, hvo, hvi⟩ := hidx i item hi
    exact ⟨f, vi, hvo, by simpa using hvi⟩

/-- C8: a template tree containing no control-flow keys and no interpolation
markers anywhere (with the data model's unique-key invariant) evaluates to
itself structurally unchanged, for any expression evaluator, any globals and
any sufficient fuel. -/
theorem identity_on_plain_templates (fuel : Nat) (ee : ExprEval) (g : Scope) (v : Value)
    (hplain : plainValue v = true) (hfuel : needV v ≤ fuel) :
    evaluateRoot fuel ee g v true = .ok v :=
  evaluatePure fuel ee g (.root v []) hplain hfuel

/-- C9: a mapping entry `if(<expr>)` whose condition evaluates to a false
value contributes nothing and raises nothing, for an arbitrary associated
value — the body is never type-checked, string-resolved or evaluated. -/
theorem if_false_skips_entry
    (fuel : Nat) (ee : ExprEval) (g : Scope) (ctx : Context) (recursive : Bool)
    (key : String) (value : Value) (result : List (String × Value)) (c : Value)
    (hpre : hasPrefixCL "if(".data key.data = true)
    (hsuf : listHasSuffix ")".data key.data = true)
    (hc : ee (sliceInner 3 1 key) (ctx.scope_chainmap g) = .ok c)
    (hfalse : truthy c = false) :
    evalEntryStep (fuel + 1) ee g ctx recursive key value result = .ok result := by
  simp only [evalEntryStep, evaluate_expression, asStr, Context.data, Context.full_scope,
    Context.scope_chainmap, List.nil_append, hpre, hsuf, hc, hfalse]
  simp only [Except.instMonad, Except.bind, hfalse]
  rfl

/-- Witness for C1 at the documented example: the true branch of
`{"if(True)": {"a": 42}, "if(False)": {"b": 24}}` merges `{"a": 42}` and the
whole template evaluates to `{"a": 42}`. -/
theorem if_block_semantics_witness :
    evalEntryStep 9 demoExpr [] (.root (.vMap []) []) true "if(True)"
      (.vMap [("a", .vInt 42)]) [] = .ok [("a", .vInt 42)] ∧
    evaluateRoot 9 demoExpr []
      (.vMap [("if(True)", .vMap [("a", .vInt 42)]), ("if(False)", .vMap [("b", .vInt 24)])]) true
      = .ok (.vMap [("a", .vInt 42)]) := by
  constructor
  · rw [(if_block_semantics 8 demoExpr [] (.root (.vMap []) []) true "if(True)"
      (.vMap [("a", .vInt 42)]) [] (.vBool true) rfl rfl rfl rfl).1 [("a", .vInt 42)] rfl]
    rfl
  · rfl

/-- Witness for C9: under a false condition even a non-mapping body raises
nothing and the entry contributes nothing. -/
theorem if_false_skips_entry_witness :
    evalEntryStep 5 demoExpr [] (.root (.vMap []) []) true "if(False)" (.vInt 5) [] = .ok [] ∧
    evaluateRoot 9 demoExpr [] (.vMap [("if(False)", .vInt 5)]) true = .ok (.vMap []) :=
  ⟨if_false_skips_entry 4 demoExpr [] (.root (.vMap []) []) true "if(False)" (.vInt 5) []
    (.vBool false) rfl rfl rfl rfl, rfl⟩

/-- Witness for C3 at the documented example: `${{ 1 + 1 }}` takes the
whole-string branch and preserves the numeric type. -/
theorem whole_string_branch_condition_witness :
    evaluate_string demoExpr [] (.root (.vStr "${{ 1 + 1 }}") []) = .ok (.vInt 2) ∧
    evaluateRoot 9 demoExpr [] (.vMap [("key", .vStr "${{ 1 + 1 }}")]) true
      = .ok (.vMap [("key", .vInt 2)]) :=
  ⟨(whole_string_branch_condition demoExpr [] (.root (.vStr "${{ 1 + 1 }}") [])
      "${{ 1 + 1 }}" rfl).1 (.vInt 2) rfl rfl, rfl⟩

/-- Witness for C4: `"a${{1+1}}b"` becomes `"a2b"`, a null interpolation site
substitutes the empty string, and a structured result raises the trace-carrying
error. -/
theorem inline_interpolation_step_witness :
    evaluate_string demoExpr [] (.root (.vStr "a${{1+1}}b") []) = .ok (.vStr "a2b") ∧
    evaluateRoot 9 demoExpr [] (.vStr "a${{None}}b") true = .ok (.vStr "ab") ∧
    evaluateRoot 9 demoExpr [] (.vStr "a${{[1]}}b") true =
      .error (.terr ⟨.root (.vStr "a${{[1]}}b") [], "Expected a plain value, got list"⟩) := by
  refine ⟨?_, rfl, rfl⟩
  rw [((inline_interpolation_step demoExpr [] (.root (.vStr "a${{1+1}}b") []) "a${{1+1}}b"
    ['a'] ['1', '+', '1'] ['b'] rfl rfl rfl (by decide) rfl rfl rfl) (.vInt 2) rfl).1 rfl]
  rfl

/-- Witness for C5: the inner binding of one shadows the global nine, and an
unbound name falls through to the parent chain. -/
theorem scope_shadowing_chain_witness :
    List.lookup "i" ((Context.node (.root .vNull []) (.ks "0") .vNull
      [("i", .vInt 1)]).full_scope [("i", .vInt 9)]) = some (.vInt 1) ∧
    List.lookup "i" ((Context.node (.root .vNull []) (.ks "k") .vNull
      [("j", .vInt 7)]).full_scope [("i", .vInt 9)]) =
      List.lookup "i" ((Context.root .vNull [] : Context).full_scope [("i", .vInt 9)]) :=
  ⟨scope_shadowing_chain.1 _ _ _ _ rfl, scope_shadowing_chain.2.1 _ _ _ _ _ _ rfl⟩

/-- Witness for C6: a `for` key without `" in "` and a `with` key without `=`
both fail with the malformed-block error at that entry. -/
theorem malformed_separator_errors_witness :
    evalEntryStep 9 demoExpr [] (.root (.vMap []) []) true "for(qq)"
      (.vMap [("a", .vInt 1)]) [] = .error (.terr ⟨.node (.root (.vMap []) [])
        (.ks "for(qq)") (.vMap [("a", .vInt 1)]) [],
        "Invalid for block expression (missing 'in'): qq"⟩) ∧
    evalEntryStep 9 demoExpr [] (.root (.vMap []) []) true "with(qq)"
      (.vMap [("a", .vInt 1)]) [] = .error (.terr ⟨.node (.root (.vMap []) [])
        (.ks "with(qq)") (.vMap [("a", .vInt 1)]) [],
        "Invalid with block expression (missing '='): qq"⟩) :=
  ⟨(malformed_separator_errors 8 demoExpr [] (.root (.vMap []) []) true "for(qq)"
      (.vMap [("a", .vInt 1)]) [] rfl).1 [("a", .vInt 1)] rfl rfl rfl,
   (malformed_separator_errors 8 demoExpr [] (.root (.vMap []) []) true "with(qq)"
      (.vMap [("a", .vInt 1)]) [] rfl).2.2.2.1 [("a", .vInt 1)] rfl rfl rfl⟩

/-- Witness for C7 on a three-element list: the output has the same length and
its first element is the evaluation of the first input element. -/
theorem sequence_evaluation_one_to_one_witness :
    ([.vInt 2, .vStr "x", .vInt 7] : List Value).length =
      ([.vStr "${{1+1}}", .vStr "x", .vInt 7] : List Value).length ∧
    (∃ f vi, ([.vInt 2, .vStr "x", .vInt 7] : List Value).get? 0 = some vi ∧
      evaluate f demoExpr []
        (.node (.root (.vList [.vStr "${{1+1}}", .vStr "x", .vInt 7]) []) (.ki 0)
          (.vStr "${{1+1}}") []) true = .ok vi) := by
  have h := sequence_evaluation_one_to_one 9 demoExpr []
    (.root (.vList [.vStr "${{1+1}}", .vStr "x", .vInt 7]) []) true
    [.vStr "${{1+1}}", .vStr "x", .vInt 7] [.vInt 2, .vStr "x", .vInt 7] rfl rfl
  exact ⟨h.1, h.2 0 (.vStr "${{1+1}}") rfl⟩

/-- Witness for C8 on a nested control-free, marker-free template. -/
theorem identity_on_plain_templates_witness :
    plainValue (.vMap [("a", .vInt 1),
      ("b", .vList [.vStr "x", .vMap [("c", .vNull), ("d", .vBool true)]])]) = true ∧
    evaluateRoot 40 demoExpr [] (.vMap [("a", .vInt 1),
      ("b", .vList [.vStr "x", .vMap [("c", .vNull), ("d", .vBool true)]])]) true
      = .ok (.vMap [("a", .vInt 1),
        ("b", .vList [.vStr "x", .vMap [("c", .vNull), ("d", .vBool true)]])]) :=
  ⟨rfl, identity_on_plain_templates 40 demoExpr [] _ rfl (by decide)⟩

/-- Witness for C2 at the documented example: the range-of-three loop merges
`key0/key1/key2` in order, and end to end the template produces them in that
key order, with a constant body key showing last-iteration overwrite. -/
theorem for_block_ordered_merge_witness :
    ForMergeSpec
      (fun idx item m => ∃ f, evaluate_dict f demoExpr []
        (.node (.node (.root (.vMap [("for(i in range(3))",
            .vMap [("key${{i}}", .vStr "value${{i}}")])]) [])
          (.ks "for(i in range(3))") (.vMap [("key${{i}}", .vStr "value${{i}}")]) [])
          (.ks (toString idx)) (.vMap [("key${{i}}", .vStr "value${{i}}")])
          [(String.mk ['i'], item)]) true = .ok m)
      [.vInt 0, .vInt 1, .vInt 2] 0 []
      [("key0", .vStr "value0"), ("key1", .vStr "value1"), ("key2", .vStr "value2")] ∧
    evaluateRoot 20 demoExpr []
      (.vMap [("for(i in range(3))", .vMap [("key${{i}}", .vStr "value${{i}}")])]) true
      = .ok (.vMap [("key0", .vStr "value0"), ("key1", .vStr "value1"),
          ("key2", .vStr "value2")]) ∧
    evaluateRoot 20 demoExpr []
      (.vMap [("for(i in range(3))", .vMap [("k", .vStr "${{i}}")])]) true
      = .ok (.vMap [("k", .vInt 2)]) := by
  refine ⟨?_, rfl, rfl⟩
  exact for_block_ordered_merge 18 demoExpr []
    (.root (.vMap [("for(i in range(3))", .vMap [("key${{i}}", .vStr "value${{i}}")])]) [])
    "for(i in range(3))" [("key${{i}}", .vStr "value${{i}}")] []
    [("key0", .vStr "value0"), ("key1", .vStr "value1"), ("key2", .vStr "value2")]
    ['i'] "range(3)".data (.vList [.vInt 0, .vInt 1, .vInt 2])
    [.vInt 0, .vInt 1, .vInt 2] rfl rfl rfl rfl rfl rfl rfl rfl
